import Mathlib

set_option maxRecDepth 8000

/-!
Verification development for the mkcommit CLI (src/index.js, final revision).
The JavaScript functions are shallowly embedded as total Lean functions on
`String` / `List Char`; a JS function that can throw is modelled with `Option`
(`none` = an exception escapes).  JS strings are sequences of characters and
all inputs considered here are ASCII, so `String`/`List Char` with
per-character operations is a faithful model.
-/

namespace Mkcommit

/-- Whitespace class used by JavaScript `trim()` and the regex class `\s`
(restricted to the characters that can occur in the ASCII inputs of this
development plus NBSP). -/
def isJsSpace (c : Char) : Bool :=
  c = ' ' || c = '\t' || c = '\n' || c = '\r' ||
  c = Char.ofNat 11 || c = Char.ofNat 12 || c = Char.ofNat 160

/-- Left trim on character lists. -/
def jsTrimLeftChars (l : List Char) : List Char := l.dropWhile isJsSpace

/-- Right trim on character lists. -/
def jsTrimRightChars (l : List Char) : List Char :=
  (l.reverse.dropWhile isJsSpace).reverse

/-- Model of JavaScript `String.prototype.trim`. -/
def jsTrimChars (l : List Char) : List Char := jsTrimRightChars (jsTrimLeftChars l)

/-- Model of JavaScript `String.prototype.trim` on `String`. -/
def jsTrim (s : String) : String := String.mk (jsTrimChars s.data)

/-- Model of JavaScript `String.prototype.endsWith`. -/
def jsEndsWith (s suffix : String) : Bool := suffix.data.isSuffixOf s.data

/-- Per-character lower casing (ASCII), the model of `toLowerCase()` on the
ASCII strings this program manipulates. -/
def jsToLowerChars (l : List Char) : List Char := l.map Char.toLower

-- ============================================================
-- Pattern Matcher (src/index.js, matchesPattern, lines 1514-1524)
-- ============================================================

/-- First rewriting pass of `matchesPattern`: `.replace(/\./g, '\\.')`. -/
def escapeDots : List Char → List Char
  | [] => []
  | c :: rest => if c = '.' then '\\' :: '.' :: escapeDots rest else c :: escapeDots rest

/-- Second rewriting pass: `.replace(/\*\*/g, '.*')`, global, left to right,
non-overlapping, no rescanning of the replacement text. -/
def rewriteDoubleStar : List Char → List Char
  | '*' :: '*' :: rest => '.' :: '*' :: rewriteDoubleStar rest
  | c :: rest => c :: rewriteDoubleStar rest
  | [] => []

/-- Third rewriting pass: `.replace(/\*/g, '[^/]*')`; the replacement text is
not rescanned, so the `*` it contains survives as a quantifier. -/
def rewriteSingleStar : List Char → List Char
  | [] => []
  | c :: rest =>
    if c = '*' then '[' :: '^' :: '/' :: ']' :: '*' :: rewriteSingleStar rest
    else c :: rewriteSingleStar rest

/-- The glob-to-regex source text built by `matchesPattern` (without the
surrounding `^`/`$` anchors, which the matcher makes implicit). -/
def compileGlob (p : List Char) : List Char :=
  rewriteSingleStar (rewriteDoubleStar (escapeDots p))

/-- One regex atom of the fragment reachable from `compileGlob`. -/
inductive RAtom where
  | lit (c : Char)
  | dot
  | cls (neg : Bool) (cs : List Char)
deriving DecidableEq

/-- A regex atom, either appearing once or under a `*` quantifier. -/
inductive RTok where
  | once (a : RAtom)
  | star (a : RAtom)
deriving DecidableEq

/-- Character-class body parser: collects literal members up to `]`;
a missing `]` is a SyntaxError (`none`), as in the JS engine. -/
def parseClassChars : Nat → List Char → Option (List Char × List Char)
  | 0, _ => none
  | _ + 1, [] => none
  | fuel + 1, c :: rest =>
    if c = ']' then some ([], rest)
    else if c = '\\' then
      match rest with
      | [] => none
      | e :: r =>
        if e.isAlphanum then none
        else (parseClassChars fuel r).map (fun p => (e :: p.1, p.2))
    else (parseClassChars fuel rest).map (fun p => (c :: p.1, p.2))

/-- Does the list start with a `*` quantifier? -/
def headIsStar : List Char → Bool
  | '*' :: _ => true
  | _ => false

/-- Recursive-descent parser for the regex fragment produced by
`compileGlob`: literals, identity escapes, `.`, character classes, groups
(flattened - a quantified group cannot arise from the rewriting), and
postfix `*`.  `none` models a SyntaxError thrown by `new RegExp`:
an unterminated group or class, an unmatched `)`, a quantifier with
nothing to repeat, a trailing backslash.  Regex features that cannot be
produced by `compileGlob` from the patterns considered in the theorems
below (alternation, bounded repetition, anchors, character ranges,
class escapes) are outside the model and also mapped to `none`. -/
def parseSeq : Nat → List Char → Option (List RTok × List Char)
  | 0, _ => none
  | _ + 1, [] => some ([], [])
  | fuel + 1, c :: rest =>
    if c = ')' then some ([], c :: rest)
    else if c = '(' then
      match parseSeq fuel rest with
      | none => none
      | some (inner, rem) =>
        match rem with
        | [] => none
        | r :: rem2 =>
          if r = ')' then
            if headIsStar rem2 then none
            else
              match parseSeq fuel rem2 with
              | none => none
              | some (ts, rem3) => some (inner ++ ts, rem3)
          else none
    else if c = '*' || c = '+' || c = '?' || c = '|' || c = '^' || c = '$' ||
            c = Char.ofNat 123 || c = Char.ofNat 125 then none
    else
      let atomRem : Option (RAtom × List Char) :=
        if c = '\\' then
          match rest with
          | [] => none
          | e :: r => if e.isAlphanum then none else some (RAtom.lit e, r)
        else if c = '.' then some (RAtom.dot, rest)
        else if c = '[' then
          match rest with
          | '^' :: r =>
            (parseClassChars (r.length + 1) r).map (fun p => (RAtom.cls true p.1, p.2))
          | r =>
            (parseClassChars (r.length + 1) r).map (fun p => (RAtom.cls false p.1, p.2))
        else some (RAtom.lit c, rest)
      match atomRem with
      | none => none
      | some (a, rem) =>
        let tokRem : RTok × List Char :=
          match rem with
          | '*' :: rem2 => (RTok.star a, rem2)
          | _ => (RTok.once a, rem)
        match parseSeq fuel tokRem.2 with
        | none => none
        | some (ts, rem3) => some (tokRem.1 :: ts, rem3)

/-- Parse a full regex source text; leftover input (an unmatched `)`) is a
SyntaxError. -/
def parseRegex (cs : List Char) : Option (List RTok) :=
  match parseSeq (cs.length + 1) cs with
  | some (ts, []) => some ts
  | _ => none

/-- JavaScript `.` matches any character except a line terminator. -/
def jsDotMatches (c : Char) : Bool :=
  !(c = '\n' || c = '\r' || c = Char.ofNat 0x2028 || c = Char.ofNat 0x2029)

/-- Single-character atom match. -/
def atomMatch : RAtom → Char → Bool
  | RAtom.lit a, c => c = a
  | RAtom.dot, c => jsDotMatches c
  | RAtom.cls neg cs, c => if neg then !(cs.contains c) else cs.contains c

/-- Anchored regex matching with explicit fuel (every recursive call
shrinks `ts.length + cs.length`, so `reMatch` below supplies enough fuel
for the fuel never to run out); star is zero-or-more with full
backtracking, which coincides with the JS engine on this fragment. -/
def reMatchFuel : Nat → List RTok → List Char → Bool
  | 0, _, _ => false
  | _ + 1, [], [] => true
  | _ + 1, [], _ :: _ => false
  | _ + 1, RTok.once _ :: _, [] => false
  | fuel + 1, RTok.once a :: ts, c :: cs => atomMatch a c && reMatchFuel fuel ts cs
  | fuel + 1, RTok.star a :: ts, cs =>
    reMatchFuel fuel ts cs ||
      (match cs with
       | [] => false
       | c :: cs2 => atomMatch a c && reMatchFuel fuel (RTok.star a :: ts) cs2)

/-- Anchored regex matching over the whole subject. -/
def reMatch (ts : List RTok) (cs : List Char) : Bool :=
  reMatchFuel (ts.length + cs.length + 1) ts cs

/-- Model of `matchesPattern(file, pattern)` (src/index.js 1514-1524).
`none` models an exception escaping (`new RegExp` throwing a SyntaxError);
`some b` models an ordinary boolean return. -/
def matchesPattern (file pattern : String) : Option Bool :=
  if pattern.data.contains '*' then
    match parseRegex (compileGlob pattern.data) with
    | some toks => some (reMatch toks file.data)
    | none => none
  else
    some (file == pattern || jsEndsWith file ("/" ++ pattern))

-- ============================================================
-- Exclusion Resolver (src/index.js 1068-1110, 1526-1554, 1926-1937)
-- ============================================================

/-- Default configured exclusions (src/index.js 1068-1081). -/
def DEFAULT_EXCLUDES : List String :=
  ["package-lock.json", "yarn.lock", "pnpm-lock.yaml", "bun.lockb",
   "composer.lock", "Gemfile.lock", "poetry.lock", "Cargo.lock",
   "pubspec.lock", "packages.lock.json", "gradle.lockfile", "flake.lock"]

/-- Built-in exclusion patterns (src/index.js 1083-1110). -/
def FIXED_EXCLUDE_PATTERNS : List String :=
  ["*.min.js", "*.min.css", "*.bundle.js", "*.chunk.js",
   "dist/*", "build/*", ".next/*", ".nuxt/*", ".output/*",
   "*.map", "*.generated.*",
   "*.woff", "*.woff2", "*.ttf", "*.eot", "*.ico",
   ".pnp.cjs", ".pnp.loader.mjs", ".yarn/cache/*", ".yarn/install-state.gz"]

/-- The combined pattern list `[...getExcludedFiles(), ...FIXED_EXCLUDE_PATTERNS]`
with the configured excludes taken as a parameter. -/
def allPatterns (configExcludes : List String) : List String :=
  configExcludes ++ FIXED_EXCLUDE_PATTERNS

/-- Model of `allPatterns.some(pattern => matchesPattern(file, pattern))`:
short-circuit disjunction, an exception from `matchesPattern` propagating
(`none`). -/
def anyPatternMatches (file : String) : List String → Option Bool
  | [] => some false
  | p :: ps =>
    match matchesPattern file p with
    | none => none
    | some true => some true
    | some false => anyPatternMatches file ps

/-- Model of `Array.prototype.filter` with a predicate that may throw:
the predicate is evaluated on every element in order and an exception
aborts the whole call. -/
def optionFilter (p : α → Option Bool) : List α → Option (List α)
  | [] => some []
  | x :: xs =>
    match p x with
    | none => none
    | some b => (optionFilter p xs).map (fun r => if b then x :: r else r)

/-- Model of `getExcludedStagedFiles(stagedFiles)` (src/index.js 1548-1554):
the staged paths matching at least one configured or fixed pattern. -/
def getExcludedStagedFiles (configExcludes stagedFiles : List String) :
    Option (List String) :=
  optionFilter (fun file => anyPatternMatches file (allPatterns configExcludes))
    stagedFiles

/-- Model of the `filesToInclude` computation inside `getStagedDiff`
(src/index.js 1671-1674): the staged paths matching no pattern. -/
def filesToInclude (configExcludes stagedFiles : List String) :
    Option (List String) :=
  optionFilter
    (fun file => (anyPatternMatches file (allPatterns configExcludes)).map (fun b => !b))
    stagedFiles

/-- Model of `addExclude(file)` (src/index.js 1926-1937) acting on the
persisted `excludeFiles` list: a no-op (with a visible message) when the
pattern is already present, otherwise a push. -/
def addExclude (excludes : List String) (file : String) : List String :=
  if excludes.contains file then excludes else excludes ++ [file]

-- ============================================================
-- Diff Acquirer (src/index.js 1639-1719, 1988-2010)
-- ============================================================

/-- Read-only snapshot of the git collaborator for one invocation: the
staged path list, the full staged diff text, and the diff restricted to an
explicit file list. -/
structure GitEnv where
  staged : List String
  diffAll : String
  diffOf : List String → String

/-- Outcome of `getStagedDiff`: a propagated exception, a `null` return,
or a diff text. -/
inductive DiffResult where
  | err
  | nullRes
  | diff (s : String)
deriving DecidableEq

/-- Model of `getStagedDiff()` (src/index.js 1639-1719) on the success path
of the subprocess calls.  The `excludePatterns` string built by
`buildExcludePatterns` is non-empty exactly when the list of staged files
matching some pattern is non-empty, so the `if (excludePatterns)` test is
modelled by that list being non-empty; an exception thrown by
`matchesPattern` during either filter propagates (`err`). -/
def getStagedDiff (configExcludes : List String) (env : GitEnv) : DiffResult :=
  if env.staged = [] then DiffResult.nullRes
  else
    match getExcludedStagedFiles configExcludes env.staged with
    | none => DiffResult.err
    | some excl =>
      if excl = [] then
        if jsTrim env.diffAll = "" then DiffResult.nullRes
        else DiffResult.diff env.diffAll
      else
        match filesToInclude configExcludes env.staged with
        | none => DiffResult.err
        | some inc =>
          if inc = [] then DiffResult.nullRes
          else
            if jsTrim (env.diffOf inc) = "" then DiffResult.nullRes
            else DiffResult.diff (env.diffOf inc)

/-- Whether `generateCommit()` (src/index.js 1988-2010) reaches the model
request: it exits with code 0 before the generation loop when
`getStagedDiff` returns `null`, and an exception from `getStagedDiff`
propagates before the loop as well, so a request is issued exactly when a
diff text is obtained. -/
def issuesModelRequest (configExcludes : List String) (env : GitEnv) : Bool :=
  match getStagedDiff configExcludes env with
  | DiffResult.diff _ => true
  | _ => false

-- ============================================================
-- Diff Summarizer (src/index.js 1282-1336)
-- ============================================================

/-- The diff-size budget `MAX_DIFF_LENGTH` (src/index.js 1127). -/
def MAX_DIFF_LENGTH : Nat := 6000

/-- Model of `split('\n')`. -/
def splitNlChars : List Char → List (List Char)
  | [] => [[]]
  | c :: rest =>
    if c = '\n' then [] :: splitNlChars rest
    else
      match splitNlChars rest with
      | [] => [[c]]
      | l :: ls => (c :: l) :: ls

/-- One per-file chunk of the truncation loop. -/
structure DiffChunk where
  header : List Char
  lines : List (List Char)
deriving DecidableEq

/-- The chunk-collection loop of `truncateDiffSmart` (src/index.js
1292-1313), including the final push of the pending chunk. -/
def collectChunksAux : List (List Char) → DiffChunk → List DiffChunk
  | [], current => if current.header = [] then [] else [current]
  | line :: rest, current =>
    if "diff --git".data.isPrefixOf line then
      if current.header = [] then collectChunksAux rest ⟨line, []⟩
      else current :: collectChunksAux rest ⟨line, []⟩
    else if "+++".data.isPrefixOf line || "---".data.isPrefixOf line ||
            "@@".data.isPrefixOf line then
      collectChunksAux rest ⟨current.header, current.lines ++ [line]⟩
    else if "+".data.isPrefixOf line || "-".data.isPrefixOf line then
      if !("+++".data.isPrefixOf line) && !("---".data.isPrefixOf line) then
        collectChunksAux rest ⟨current.header, current.lines ++ [line]⟩
      else collectChunksAux rest current
    else collectChunksAux rest current

/-- Model of `Array.prototype.join('\n')`. -/
def joinNl : List (List Char) → List Char
  | [] => []
  | [l] => l
  | l :: ls => l ++ '\n' :: joinNl ls

/-- The per-file omission marker `... (N more lines)`. -/
def moreLine (n : Nat) : List Char :=
  "... (".data ++ (Nat.repr n).data ++ " more lines)".data

/-- The global truncation marker pushed when the accumulated length
exceeds the budget. -/
def truncMarker : List Char := "\n[... diff truncated for length ...]".data

/-- The assembly loop of `truncateDiffSmart` (src/index.js 1316-1333):
per chunk, the header plus the first `max(maxLinesPerFile, 10)` retained
lines, a per-file omission marker when lines were cut, and the running
total re-adds the length of the whole joined result each iteration (as
the source does); once the total exceeds the budget the global marker is
pushed and the loop breaks. -/
def assembleChunks (maxLinesPerFile : Nat) :
    List DiffChunk → List (List Char) → Nat → List (List Char)
  | [], result, _ => result
  | chunk :: rest, result, totalLength =>
    let important := chunk.lines.take (max maxLinesPerFile 10)
    let r1 := (result ++ [chunk.header]) ++ important
    let r2 :=
      if chunk.lines.length > important.length then
        r1 ++ [moreLine (chunk.lines.length - important.length)]
      else r1
    let tl := totalLength + (joinNl r2).length
    if tl > MAX_DIFF_LENGTH then r2 ++ [truncMarker]
    else assembleChunks maxLinesPerFile rest r2 tl

/-- Model of `truncateDiffSmart(diff)` (src/index.js 1282-1336).
`Math.floor(MAX_DIFF_LENGTH / (chunks.length || 1) / 50)` equals the
nested natural-number division used here. -/
def truncateDiffSmart (diff : String) : String :=
  if diff.length ≤ MAX_DIFF_LENGTH then diff
  else
    let lines := splitNlChars diff.data
    let chunks := collectChunksAux lines ⟨[], []⟩
    let maxLinesPerFile := MAX_DIFF_LENGTH / (max chunks.length 1) / 50
    String.mk (joinNl (assembleChunks maxLinesPerFile chunks [] 0))

/-- Concrete oversized diff used to refute the C4 length bound: a single
header line of 6011 characters. -/
def bigDiff : String :=
  String.mk ("diff --git ".data ++ List.replicate 6000 'a')

-- ============================================================
-- Response Normalizer (src/index.js 1385-1489)
-- ============================================================

/-- The eleven canonical commit types (src/index.js 1112-1124). -/
def COMMIT_TYPES : List String :=
  ["feat", "fix", "docs", "style", "refactor", "perf", "test", "build",
   "ci", "chore", "revert"]

/-- The synonym table of parseCommitResponse (src/index.js 1426-1438). -/
def typeMap : List (String × String) :=
  [("feature", "feat"), ("bugfix", "fix"), ("bug", "fix"), ("doc", "docs"),
   ("documentation", "docs"), ("tests", "test"), ("testing", "test"),
   ("performance", "perf"), ("maintenance", "chore"), ("update", "chore"),
   ("wip", "chore")]

/-- Own property names of `Object.prototype` (the standard seven plus the
Annex B legacy accessors present in Node): the bracket lookup
`typeMap[key]` on a plain object literal walks the prototype chain when
`key` is not an own key, and each of these names yields a truthy
non-string inherited value (a built-in function, or the prototype object
itself for `__proto__`). -/
def OBJECT_PROTOTYPE_MEMBERS : List String :=
  ["constructor", "hasOwnProperty", "isPrototypeOf", "propertyIsEnumerable",
   "toLocaleString", "toString", "valueOf", "__proto__",
   "__defineGetter__", "__defineSetter__", "__lookupGetter__",
   "__lookupSetter__"]

/-- The JS value stored in `parsed.type` after the type-correction step:
either a string, or the truthy non-string value inherited from
`Object.prototype` when the lower-cased type names one of its members
(src/index.js 1439: `typeMap[parsed.type.toLowerCase()] || 'chore'`
finds the inherited member before the `|| 'chore'` fallback). -/
inductive TypeField where
  | str (s : String)
  | inheritedMember (name : String)
deriving DecidableEq

/-- Template-literal stringification of the stored type value, as the
formatter's backtick template performs it: a string interpolates as
itself; under Node's V8 engine a built-in function prints as
`function name() \x7b [native code] \x7d` using the function's own name
(`constructor` holds the function named `Object`), and the `__proto__`
object prints as `[object Object]`. -/
def typeFieldToString : TypeField → String
  | TypeField.str s => s
  | TypeField.inheritedMember name =>
    if name = "__proto__" then "[object Object]"
    else if name = "constructor" then "function Object() \x7b [native code] \x7d"
    else "function " ++ name ++ "() \x7b [native code] \x7d"

/-- Opening brace character. -/
def lbrace : Char := Char.ofNat 123

/-- Closing brace character. -/
def rbrace : Char := Char.ofNat 125

/-- A parsed JSON value.  Numbers keep only their lexeme: the program never
uses a numeric value, only typeof distinctions. -/
inductive JVal where
  | jnull
  | jbool (b : Bool)
  | jnum (lexeme : String)
  | jstr (s : String)
  | jarr (xs : List JVal)
  | jobj (kvs : List (String × JVal))

/-- JSON insignificant whitespace. -/
def isJsonWs (c : Char) : Bool := c = ' ' || c = '\t' || c = '\n' || c = '\r'

/-- Skip JSON whitespace. -/
def skipJsonWs (l : List Char) : List Char := l.dropWhile isJsonWs

/-- Hexadecimal digit value. -/
def hexVal (c : Char) : Option Nat :=
  if '0' ≤ c ∧ c ≤ '9' then some (c.toNat - '0'.toNat)
  else if 'a' ≤ c ∧ c ≤ 'f' then some (c.toNat - 'a'.toNat + 10)
  else if 'A' ≤ c ∧ c ≤ 'F' then some (c.toNat - 'A'.toNat + 10)
  else none

/-- ASCII decimal digit test. -/
def isDigit (c : Char) : Bool := '0' ≤ c && c ≤ '9'

/-- JSON string body (after the opening quote): returns the decoded
characters and the rest after the closing quote; an invalid escape, an
unescaped control character or a missing closing quote fails (as
`JSON.parse` does). -/
def parseJsonStringAux : Nat → List Char → Option (List Char × List Char)
  | 0, _ => none
  | _ + 1, [] => none
  | fuel + 1, c :: rest =>
    if c = '"' then some ([], rest)
    else if c = '\\' then
      match rest with
      | [] => none
      | e :: r =>
        let esc : Option (Char × List Char) :=
          if e = '"' then some ('"', r)
          else if e = '\\' then some ('\\', r)
          else if e = '/' then some ('/', r)
          else if e = 'b' then some (Char.ofNat 8, r)
          else if e = 'f' then some (Char.ofNat 12, r)
          else if e = 'n' then some ('\n', r)
          else if e = 'r' then some ('\r', r)
          else if e = 't' then some ('\t', r)
          else if e = 'u' then
            match r with
            | h1 :: h2 :: h3 :: h4 :: r2 =>
              match hexVal h1, hexVal h2, hexVal h3, hexVal h4 with
              | some a, some b, some c2, some d =>
                some (Char.ofNat (((a * 16 + b) * 16 + c2) * 16 + d), r2)
              | _, _, _, _ => none
            | _ => none
          else none
        match esc with
        | none => none
        | some (ch, r2) =>
          (parseJsonStringAux fuel r2).map (fun p => (ch :: p.1, p.2))
    else if c.toNat < 32 then none
    else (parseJsonStringAux fuel rest).map (fun p => (c :: p.1, p.2))

/-- Optional fraction part of a JSON number. -/
def parseJsonFrac (l : List Char) : Option (List Char × List Char) :=
  match l with
  | '.' :: r =>
    let ds := r.takeWhile isDigit
    if ds = [] then none else some ('.' :: ds, r.drop ds.length)
  | _ => some ([], l)

/-- Optional exponent part of a JSON number. -/
def parseJsonExp (l : List Char) : Option (List Char × List Char) :=
  match l with
  | [] => some ([], [])
  | c :: r =>
    if c = 'e' || c = 'E' then
      let sr : List Char × List Char :=
        match r with
        | s :: r2 => if s = '+' || s = '-' then ([s], r2) else ([], r)
        | [] => ([], r)
      let ds := sr.2.takeWhile isDigit
      if ds = [] then none
      else some (c :: (sr.1 ++ ds), sr.2.drop ds.length)
    else some ([], l)

/-- JSON number lexeme, strict grammar. -/
def parseJsonNumber (l : List Char) : Option (List Char × List Char) :=
  let ml : List Char × List Char :=
    match l with
    | '-' :: r => (['-'], r)
    | _ => ([], l)
  match ml.2 with
  | [] => none
  | c :: r =>
    if c = '0' then
      match parseJsonFrac r with
      | none => none
      | some (f, r2) =>
        match parseJsonExp r2 with
        | none => none
        | some (e, r3) => some (ml.1 ++ [c] ++ f ++ e, r3)
    else if isDigit c then
      let ds := r.takeWhile isDigit
      match parseJsonFrac (r.drop ds.length) with
      | none => none
      | some (f, r2) =>
        match parseJsonExp r2 with
        | none => none
        | some (e, r3) => some (ml.1 ++ (c :: ds) ++ f ++ e, r3)
    else none

mutual

/-- Recursive-descent JSON value parser (leading whitespace skipped),
modelling `JSON.parse`'s grammar; the fuel is decremented on every
nesting step and the top entry supplies more fuel than the input length,
so it never runs out on the way to an answer. -/
def parseJsonValue : Nat → List Char → Option (JVal × List Char)
  | 0, _ => none
  | fuel + 1, l =>
    match skipJsonWs l with
    | [] => none
    | c :: rest =>
      if c = '"' then
        (parseJsonStringAux (rest.length + 1) rest).map
          (fun p => (JVal.jstr (String.mk p.1), p.2))
      else if c = lbrace then parseJsonMembers fuel (skipJsonWs rest) true
      else if c = '[' then parseJsonElements fuel (skipJsonWs rest) true
      else if c = 't' then
        match rest with
        | 'r' :: 'u' :: 'e' :: r => some (JVal.jbool true, r)
        | _ => none
      else if c = 'f' then
        match rest with
        | 'a' :: 'l' :: 's' :: 'e' :: r => some (JVal.jbool false, r)
        | _ => none
      else if c = 'n' then
        match rest with
        | 'u' :: 'l' :: 'l' :: r => some (JVal.jnull, r)
        | _ => none
      else if c = '-' || isDigit c then
        (parseJsonNumber (c :: rest)).map
          (fun p => (JVal.jnum (String.mk p.1), p.2))
      else none

/-- Object members up to the closing brace (input already
whitespace-skipped); duplicate keys are all kept in order and the lookup
below takes the last, as a JS object literal does. -/
def parseJsonMembers : Nat → List Char → Bool → Option (JVal × List Char)
  | 0, _, _ => none
  | fuel + 1, l, first =>
    match l with
    | [] => none
    | c :: rest =>
      if first && c = rbrace then some (JVal.jobj [], rest)
      else if c = '"' then
        match parseJsonStringAux (rest.length + 1) rest with
        | none => none
        | some (key, r1) =>
          match skipJsonWs r1 with
          | ':' :: r3 =>
            match parseJsonValue fuel r3 with
            | none => none
            | some (v, r4) =>
              match skipJsonWs r4 with
              | ',' :: r6 =>
                match parseJsonMembers fuel (skipJsonWs r6) false with
                | some (JVal.jobj kvs, r7) =>
                  some (JVal.jobj ((String.mk key, v) :: kvs), r7)
                | _ => none
              | c2 :: r6 =>
                if c2 = rbrace then some (JVal.jobj [(String.mk key, v)], r6)
                else none
              | [] => none
          | _ => none
      else none

/-- Array elements up to the closing bracket (input already
whitespace-skipped). -/
def parseJsonElements : Nat → List Char → Bool → Option (JVal × List Char)
  | 0, _, _ => none
  | fuel + 1, l, first =>
    match l with
    | [] => none
    | c :: rest =>
      if first && c = ']' then some (JVal.jarr [], rest)
      else
        match parseJsonValue fuel l with
        | none => none
        | some (v, r1) =>
          match skipJsonWs r1 with
          | ',' :: r2 =>
            match parseJsonElements fuel (skipJsonWs r2) false with
            | some (JVal.jarr xs, r3) => some (JVal.jarr (v :: xs), r3)
            | _ => none
          | ']' :: r2 => some (JVal.jarr [v], r2)
          | _ => none

end

/-- Model of `JSON.parse`: parse one value, allow trailing whitespace
only. -/
def parseJson (s : String) : Option JVal :=
  match parseJsonValue (s.data.length + 1) s.data with
  | some (v, rest) => if skipJsonWs rest = [] then some v else none
  | none => none

/-- Property access `parsed[k]` where a JS object keeps the last of
duplicate keys; every non-object receiver yields undefined (and `null`
throws, which lands in the same fallback branch of the caller). -/
def lookupField (kvs : List (String × JVal)) (k : String) : Option JVal :=
  match kvs with
  | [] => none
  | (k2, v) :: rest =>
    match lookupField rest k with
    | some v2 => some v2
    | none => if k2 = k then some v else none

/-- Field access on a JSON value. -/
def getField (v : JVal) (k : String) : Option JVal :=
  match v with
  | JVal.jobj kvs => lookupField kvs k
  | _ => none

/-- The structured commit record (§3 CommitRecord): `scope = none` models
both an absent key and `null`; `body = none` models an absent key; the
type field holds the JS value stored by the type-correction step, which
is a string except in the inherited-member corner. -/
structure CommitRecord where
  type : TypeField
  scope : Option String
  subject : String
  body : Option (List String)
deriving DecidableEq

/-- Model of `toLowerCase()` on `String` (ASCII). -/
def jsToLower (s : String) : String := String.mk (jsToLowerChars s.data)

/-- Model of `replace(/\.$/, '')`: strip one trailing period. -/
def stripTrailingDot (s : String) : String :=
  if s.data.getLast? = some '.' then String.mk s.data.dropLast else s

/-- Model of `substring(0, n)`. -/
def jsSubstringTo (s : String) (n : Nat) : String := String.mk (s.data.take n)

/-- The subject clean-up `subject.toLowerCase().replace(/\.$/, '').substring(0, 50)`
(src/index.js 1443-1446 and 1476). -/
def cleanSubject (subject : String) : String :=
  jsSubstringTo (stripTrailingDot (jsToLower subject)) 50

/-- Own-property lookup in the synonym table: the first stage of the JS
bracket lookup `typeMap[k]`, before the prototype chain is consulted. -/
def typeMapLookup (k : String) : Option String :=
  (typeMap.find? (fun kv => kv.1 == k)).map (fun kv => kv.2)

/-- Type validation and correction (src/index.js 1425-1440): keep a
canonical type as-is (case-sensitive `includes`); otherwise evaluate
`typeMap[parsed.type.toLowerCase()] || 'chore'`, whose bracket lookup
first finds an own synonym entry, then a truthy inherited member of
`Object.prototype` (stored as-is, since `||` never reaches the
fallback), and only otherwise yields undefined and falls back to
"chore". -/
def normalizeType (t : String) : TypeField :=
  if COMMIT_TYPES.contains t then TypeField.str t
  else
    match typeMapLookup (jsToLower t) with
    | some s => TypeField.str s
    | none =>
      if OBJECT_PROTOTYPE_MEMBERS.contains (jsToLower t) then
        TypeField.inheritedMember (jsToLower t)
      else TypeField.str "chore"

/-- Body clean-up (src/index.js 1449-1453): keep string items with a
non-blank trim, trimmed. -/
def cleanBodyItems (items : List JVal) : List String :=
  items.filterMap (fun j =>
    match j with
    | JVal.jstr s => if jsTrim s = "" then none else some (jsTrim s)
    | _ => none)

/-- Field validation and repair on a structurally parsed object with
string `type`/`subject` (src/index.js 1411-1455): a non-string scope is
dropped, a string body is wrapped into a one-element array and a
non-array non-string body dropped, the type remapped and the subject and
body items cleaned. -/
def repairParsed (v : JVal) (t subject : String) : CommitRecord :=
  let scope : Option String :=
    match getField v "scope" with
    | some (JVal.jstr s) => some s
    | _ => none
  let body : Option (List String) :=
    match getField v "body" with
    | some (JVal.jarr xs) => some (cleanBodyItems xs)
    | some (JVal.jstr s) => some (cleanBodyItems [JVal.jstr s])
    | _ => none
  ⟨normalizeType t, scope, cleanSubject subject, body⟩

/-- Does the line start with a bullet marker (`startsWith('-') ||
startsWith('*')`)? -/
def bulletStart (l : List Char) : Bool :=
  match l with
  | c :: _ => c = '-' || c = '*'
  | [] => false

/-- Model of `replace(/^[-*]\s*/, '')`. -/
def stripBullet (l : List Char) : List Char :=
  match l with
  | c :: rest => if c = '-' || c = '*' then rest.dropWhile isJsSpace else l
  | [] => []

/-- Case-insensitive match of a commit-type token at the start of a line
(the fallback regex has the `i` flag and lowercase alternatives). -/
def tryTypeCi (ty : String) (l : List Char) : Option (List Char) :=
  if jsToLowerChars (l.take ty.length) = ty.data then some (l.drop ty.length)
  else none

/-- The `(\(([^)]+)\))?:` portion of the fallback regex: an optional
parenthesised scope of one or more non-`)` characters, then a colon. -/
def parseScopeColon (rest : List Char) : Option (Option String × List Char) :=
  match rest with
  | ':' :: r2 => some (none, r2)
  | '(' :: r =>
    let inner := r.takeWhile (fun c => !(c = ')'))
    match r.drop inner.length with
    | ')' :: ':' :: r2 =>
      if inner = [] then none else some (some (String.mk inner), r2)
    | _ => none
  | _ => none

/-- Largest index at most `p` holding a character `.` can match (used to
model the backtracking between greedy `\s*` and `.+`). -/
def findSubjectStart : Nat → List Char → Option Nat
  | 0, r2 =>
    if h : 0 < r2.length then
      if jsDotMatches (r2.get ⟨0, h⟩) then some 0 else none
    else none
  | p + 1, r2 =>
    if h : p + 1 < r2.length then
      if jsDotMatches (r2.get ⟨p + 1, h⟩) then some (p + 1)
      else findSubjectStart p r2
    else findSubjectStart p r2

/-- The `\s*(.+)` tail of the fallback regex: greedy whitespace, then a
greedy non-empty run of non-line-terminator characters, with `\s*`
backtracking when everything is whitespace. -/
def parseSubjectAfterColon (r2 : List Char) : Option (List Char) :=
  let w := (r2.takeWhile isJsSpace).length
  match findSubjectStart w r2 with
  | none => none
  | some p => some ((r2.drop p).takeWhile jsDotMatches)

/-- Try the eleven regex alternatives in order; the engine moves to the
next alternative when the continuation after a type token fails. -/
def matchConventionalAux :
    List String → List Char → Option (String × Option String × String)
  | [], _ => none
  | ty :: tys, l =>
    match tryTypeCi ty l with
    | none => matchConventionalAux tys l
    | some rest =>
      match parseScopeColon rest with
      | none => matchConventionalAux tys l
      | some (sc, r2) =>
        match parseSubjectAfterColon r2 with
        | none => matchConventionalAux tys l
        | some subj => some (ty, sc, String.mk subj)

/-- The first-line match against
`^(feat|fix|docs|style|refactor|perf|test|build|ci|chore|revert)(\(([^)]+)\))?:\s*(.+)/i`
(src/index.js 1468-1470). -/
def matchConventional (l : List Char) : Option (String × Option String × String) :=
  matchConventionalAux COMMIT_TYPES l

/-- Model of `extractCommitFromText(text)` (src/index.js 1464-1489),
matching on the non-blank lines of the text. -/
def extractCommitFromText (text : String) : CommitRecord :=
  match (splitNlChars text.data).filter (fun l => !(jsTrimChars l).isEmpty) with
  | [] =>
    ⟨TypeField.str "chore", none, stripTrailingDot "update files", some []⟩
  | first :: rest =>
    match matchConventional first with
    | some (ty, sc, subj) =>
      ⟨TypeField.str ty, sc, cleanSubject subj,
        some ((rest.filter bulletStart).map (fun l => String.mk (stripBullet l)))⟩
    | none =>
      ⟨TypeField.str "chore", none,
        stripTrailingDot (jsToLower (String.mk (first.take 50))), some []⟩

/-- Model of `replace(/^```json\s*/i, '')`. -/
def stripFenceOpenJson (l : List Char) : List Char :=
  if jsToLowerChars (l.take 7) = "```json".data then
    (l.drop 7).dropWhile isJsSpace
  else l

/-- Model of `replace(/^```\s*/i, '')`. -/
def stripFenceOpen (l : List Char) : List Char :=
  if l.take 3 = "```".data then (l.drop 3).dropWhile isJsSpace else l

/-- Model of `replace(/```\s*$/i, '')`: remove from the leftmost
occurrence of three backticks followed only by whitespace to the end. -/
def stripFenceClose : List Char → List Char
  | [] => []
  | c :: rest =>
    if "```".data.isPrefixOf (c :: rest) && ((c :: rest).drop 3).all isJsSpace
    then []
    else c :: stripFenceClose rest

/-- Index of the first opening brace. -/
def firstBraceIdx (l : List Char) : Option Nat := l.findIdx? (fun c => c = lbrace)

/-- Index of the last closing brace. -/
def lastBraceIdx (l : List Char) : Option Nat :=
  match l.reverse.findIdx? (fun c => c = rbrace) with
  | some i => some (l.length - 1 - i)
  | none => none

/-- Model of `jsonStr.match(/\{[\s\S]*\}/)` and the subsequent
substitution: the greedy match runs from the first opening brace to the
last closing brace when the latter comes after the former, otherwise the
string is left unchanged. -/
def extractBraceSpan (l : List Char) : List Char :=
  match firstBraceIdx l, lastBraceIdx l with
  | some i, some j => if i < j then (l.drop i).take (j - i + 1) else l
  | _, _ => l

/-- The string-cleaning pipeline at the head of `parseCommitResponse`
(src/index.js 1386-1398): trim, strip the opening ```json and ``` fences,
strip a trailing fence, trim again, extract the brace span. -/
def cleanedResponse (rawResponse : String) : List Char :=
  extractBraceSpan
    (jsTrimChars
      (stripFenceClose (stripFenceOpen (stripFenceOpenJson
        (jsTrimChars rawResponse.data)))))

/-- Model of `parseCommitResponse(rawResponse)` (src/index.js 1385-1462):
clean the raw text, strictly parse it, and either repair the parsed
object or fall back to the text extractor on the original raw text.  The
fallback is also taken for a missing, empty, falsy or non-string type or
subject, since those throw inside the try block (in that check order). -/
def parseCommitResponse (rawResponse : String) : CommitRecord :=
  match parseJson (String.mk (cleanedResponse rawResponse)) with
  | none => extractCommitFromText rawResponse
  | some v =>
    match getField v "type" with
    | some (JVal.jstr t) =>
      if t = "" then extractCommitFromText rawResponse
      else
        match getField v "subject" with
        | some (JVal.jstr subj) =>
          if subj = "" then extractCommitFromText rawResponse
          else repairParsed v t subj
        | _ => extractCommitFromText rawResponse
    | _ => extractCommitFromText rawResponse

-- ============================================================
-- Message Formatter (src/index.js 1491-1508)
-- ============================================================

/-- Model of `formatCommitMessage(commitData)` (src/index.js 1491-1508).
The scope test is JS truthiness, so an empty-string scope renders like an
absent one; the body appends only when present and non-empty. -/
def formatCommitMessage (commitData : CommitRecord) : String :=
  let message :=
    match commitData.scope with
    | some s =>
      if s = "" then typeFieldToString commitData.type ++ ": " ++ commitData.subject
      else typeFieldToString commitData.type ++ "(" ++ s ++ "): " ++ commitData.subject
    | none => typeFieldToString commitData.type ++ ": " ++ commitData.subject
  match commitData.body with
  | some items =>
    if items.length > 0 then
      message ++ "\n\n" ++
        String.intercalate "\n" (items.map (fun i => "- " ++ i))
    else message
  | none => message

end Mkcommit

namespace Mkcommit

/-- C3: matchesPattern satisfies the glob/exact contract: the four
documented concrete cases, and for any pattern containing no glob
metacharacter the match holds iff the path equals the pattern or ends
with "/" followed by the pattern. -/
theorem matchesPattern_glob_exact_contract :
    matchesPattern "dist/app.js" "dist/*" = some true ∧
    matchesPattern "src/dist/app.js" "dist/*" = some false ∧
    matchesPattern "package-lock.json" "package-lock.json" = some true ∧
    matchesPattern "sub/package-lock.json" "package-lock.json" = some true ∧
    ∀ path pattern : String, pattern.data.contains '*' = false →
      (matchesPattern path pattern = some true ↔
        (path = pattern ∨ jsEndsWith path ("/" ++ pattern) = true)) := by
  refine ⟨by decide, by decide, by decide, by decide, ?_⟩
  intro path pattern h
  have h' : ¬ ('*' ∈ pattern.data) := by simpa using h
  simp [matchesPattern, h']

/-- Witness for C3 at a concrete no-glob pattern. -/
theorem matchesPattern_glob_exact_contract_witness :
    matchesPattern "a/b" "b" = some true ↔
      ("a/b" = "b" ∨ jsEndsWith "a/b" ("/" ++ "b") = true) :=
  matchesPattern_glob_exact_contract.2.2.2.2 "a/b" "b" (by decide)

/-- C2 counterexample: the pattern "(*" compiles to the regex source
"([^/]*", whose group is never closed; `new RegExp` throws a SyntaxError
which `matchesPattern` does not catch, so the call raises instead of
returning false. -/
theorem matchesPattern_invalid_pattern_throws :
    matchesPattern "x" "(*" = none := by decide

/-- C2 (amended): for every pattern that contains no `*`, matchesPattern
returns a boolean without raising; a pattern containing `*` whose compiled
form is an invalid regular expression makes matchesPattern throw rather
than return false. -/
theorem matchesPattern_total_without_star :
    ∀ path pattern : String, pattern.data.contains '*' = false →
      (matchesPattern path pattern).isSome = true := by
  intro path pattern h
  have h' : ¬ ('*' ∈ pattern.data) := by simpa using h
  simp [matchesPattern, h']

/-- Witness for the amended C2 at a concrete pattern without `*`. -/
theorem matchesPattern_total_without_star_witness :
    (matchesPattern "src/a.js" "package-lock.json").isSome = true :=
  matchesPattern_total_without_star "src/a.js" "package-lock.json" (by decide)

/-- C10 counterexample: the claim asserts `matches("dist/a/b.js",
"dist/**")` is true, but the single-star replacement also rewrites the
`*` inserted by the double-star replacement, so `dist/**` compiles to
`dist/.[^/]*` and the match is false. -/
theorem doubleStar_does_not_cross_separator :
    matchesPattern "dist/a/b.js" "dist/**" = some false := by decide

/-- C10 (amended): a single `*` compiles to the non-separator run `[^/]*`;
a doubled `**` first becomes `.*` but its `*` is then rewritten again, so
`**` effectively compiles to `.` followed by `[^/]*` (one arbitrary
character then a non-separator run).  Hence neither `dist/*` nor
`dist/**` matches `dist/a/b.js`, while `dist/**` does match `dist/ab.js`
and `dist/*` matches `dist/app.js`. -/
theorem star_compilation_behavior :
    compileGlob "dist/**".data = "dist/.[^/]*".data ∧
    compileGlob "dist/*".data = "dist/[^/]*".data ∧
    matchesPattern "dist/a/b.js" "dist/*" = some false ∧
    matchesPattern "dist/a/b.js" "dist/**" = some false ∧
    matchesPattern "dist/ab.js" "dist/**" = some true ∧
    matchesPattern "dist/app.js" "dist/*" = some true := by
  refine ⟨by decide, by decide, by decide, by decide, by decide, by decide⟩

/-- Decomposition of a successful `optionFilter` run: the predicate threw
nowhere and the result is the ordinary boolean filter. -/
theorem optionFilter_eq_some {α : Type} {p : α → Option Bool} :
    ∀ {l r : List α}, optionFilter p l = some r →
      (∀ x ∈ l, (p x).isSome = true) ∧
        r = l.filter (fun x => (p x).getD false) := by
  intro l
  induction l with
  | nil =>
    intro r h
    simp only [optionFilter, Option.some.injEq] at h
    subst h
    simp
  | cons x xs ih =>
    intro r h
    simp only [optionFilter] at h
    cases hx : p x with
    | none => rw [hx] at h; simp at h
    | some b =>
      rw [hx] at h
      cases hrest : optionFilter p xs with
      | none => rw [hrest] at h; simp at h
      | some r2 =>
        rw [hrest] at h
        simp only [Option.map_some', Option.some.injEq] at h
        obtain ⟨h1, h2⟩ := ih hrest
        refine ⟨?_, ?_⟩
        · intro y hy
          rcases List.mem_cons.mp hy with rfl | hy2
          · simp [hx]
          · exact h1 y hy2
        · subst h
          cases b with
          | true => simp [List.filter_cons, hx, h2]
          | false => simp [List.filter_cons, hx, h2]

/-- If the predicate never throws on the list, `optionFilter` succeeds. -/
theorem optionFilter_isSome {α : Type} {p : α → Option Bool} :
    ∀ {l : List α}, (∀ x ∈ l, (p x).isSome = true) →
      (optionFilter p l).isSome = true := by
  intro l
  induction l with
  | nil => intro _; simp [optionFilter]
  | cons x xs ih =>
    intro h
    have hx := h x (List.mem_cons_self x xs)
    cases hpx : p x with
    | none => rw [hpx] at hx; simp at hx
    | some b =>
      have hxs := ih (fun y hy => h y (List.mem_cons_of_mem x hy))
      cases hrest : optionFilter p xs with
      | none => rw [hrest] at hxs; simp at hxs
      | some r => simp [optionFilter, hpx, hrest]

/-- C5: whenever both filters run without an exception, the "to skip"
list (getExcludedStagedFiles) and the "to analyze" list (filesToInclude)
partition the staged paths: same members as the input, no common member,
and each preserves the input order (is a sublist of the input). -/
theorem exclusion_partition :
    ∀ (configExcludes stagedFiles skip keep : List String),
      getExcludedStagedFiles configExcludes stagedFiles = some skip →
      filesToInclude configExcludes stagedFiles = some keep →
      (∀ x, x ∈ stagedFiles ↔ (x ∈ skip ∨ x ∈ keep)) ∧
      (∀ x, ¬(x ∈ skip ∧ x ∈ keep)) ∧
      skip.Sublist stagedFiles ∧ keep.Sublist stagedFiles := by
  intro cfg staged skip keep hs hk
  obtain ⟨hs1, hs2⟩ := optionFilter_eq_some hs
  obtain ⟨_, hk2⟩ := optionFilter_eq_some hk
  subst hs2
  subst hk2
  refine ⟨?_, ?_, List.filter_sublist _, List.filter_sublist _⟩
  · intro x
    constructor
    · intro hx
      have hS := hs1 x hx
      cases hpx : anyPatternMatches x (allPatterns cfg) with
      | none => rw [hpx] at hS; simp at hS
      | some b =>
        cases b with
        | true => exact Or.inl (List.mem_filter.mpr ⟨hx, by simp [hpx]⟩)
        | false => exact Or.inr (List.mem_filter.mpr ⟨hx, by simp [hpx]⟩)
    · intro hx
      rcases hx with hx | hx <;> exact (List.mem_filter.mp hx).1
  · rintro x ⟨h1, h2⟩
    obtain ⟨hm1, hq1⟩ := List.mem_filter.mp h1
    obtain ⟨_, hq2⟩ := List.mem_filter.mp h2
    cases hpx : anyPatternMatches x (allPatterns cfg) with
    | none =>
      have hS := hs1 x hm1
      rw [hpx] at hS
      simp at hS
    | some b =>
      rw [hpx] at hq1 hq2
      cases b with
      | true => simp at hq2
      | false => simp at hq1

/-- Witness for C5: the end-to-end scenario of the spec, with the default
configured excludes and `src/a.js` plus `package-lock.json` staged. -/
theorem exclusion_partition_witness :
    (∀ x, x ∈ ["src/a.js", "package-lock.json"] ↔
      (x ∈ ["package-lock.json"] ∨ x ∈ ["src/a.js"])) ∧
    (∀ x, ¬(x ∈ ["package-lock.json"] ∧ x ∈ ["src/a.js"])) ∧
    List.Sublist ["package-lock.json"] ["src/a.js", "package-lock.json"] ∧
    List.Sublist ["src/a.js"] ["src/a.js", "package-lock.json"] :=
  exclusion_partition DEFAULT_EXCLUDES ["src/a.js", "package-lock.json"]
    ["package-lock.json"] ["src/a.js"] (by decide) (by decide)

/-- C8: adding an exclusion pattern that is already present leaves the
persisted exclusion list entirely unchanged. -/
theorem addExclude_idempotent :
    ∀ (excludes : List String) (file : String), file ∈ excludes →
      addExclude excludes file = excludes := by
  intro ex f h
  simp [addExclude, h]

/-- Witness for C8 at a concrete already-present pattern. -/
theorem addExclude_idempotent_witness :
    addExclude ["package-lock.json", "yarn.lock"] "yarn.lock" =
      ["package-lock.json", "yarn.lock"] :=
  addExclude_idempotent ["package-lock.json", "yarn.lock"] "yarn.lock" (by decide)

/-- C6: whenever the set of files to analyze is empty — nothing staged,
every staged file excluded (filesToInclude evaluates to the empty list),
or the produced diff text blank — getStagedDiff returns null and
generateCommit exits without issuing a model request. -/
theorem empty_analysis_no_model_request :
    ∀ (configExcludes : List String) (env : GitEnv),
      (env.staged = [] ∨
       filesToInclude configExcludes env.staged = some [] ∨
       ((getExcludedStagedFiles configExcludes env.staged).isSome = true ∧
        jsTrim env.diffAll = "" ∧ ∀ files, jsTrim (env.diffOf files) = "")) →
      getStagedDiff configExcludes env = DiffResult.nullRes ∧
      issuesModelRequest configExcludes env = false := by
  intro cfg env h
  have hnull : getStagedDiff cfg env = DiffResult.nullRes := by
    rcases h with h0 | hinc | ⟨hexS, hall, hof⟩
    · simp [getStagedDiff, h0]
    · by_cases h0 : env.staged = []
      · simp [getStagedDiff, h0]
      · obtain ⟨h1, h2⟩ := optionFilter_eq_some hinc
        have hA : ∀ x ∈ env.staged,
            (anyPatternMatches x (allPatterns cfg)).isSome = true := by
          intro x hx
          have hm := h1 x hx
          cases hpx : anyPatternMatches x (allPatterns cfg) with
          | none => rw [hpx] at hm; simp at hm
          | some b => simp
        have hAtrue : ∀ x ∈ env.staged,
            anyPatternMatches x (allPatterns cfg) = some true := by
          intro x hx
          cases hpx : anyPatternMatches x (allPatterns cfg) with
          | none =>
            have hm := hA x hx
            rw [hpx] at hm
            simp at hm
          | some b =>
            cases b with
            | true => rfl
            | false =>
              have : x ∈ List.filter
                  (fun x => ((anyPatternMatches x (allPatterns cfg)).map
                    (fun b => !b)).getD false) env.staged := by
                exact List.mem_filter.mpr ⟨hx, by simp [hpx]⟩
              rw [← h2] at this
              simp at this
        have hexSome : (optionFilter
            (fun file => anyPatternMatches file (allPatterns cfg))
            env.staged).isSome = true := optionFilter_isSome hA
        obtain ⟨r, hr⟩ := Option.isSome_iff_exists.mp hexSome
        obtain ⟨_, hr2⟩ := optionFilter_eq_some hr
        have hrs : r = env.staged := by
          rw [hr2]
          exact List.filter_eq_self.mpr (fun x hx => by simp [hAtrue x hx])
        have hex : getExcludedStagedFiles cfg env.staged = some env.staged :=
          hrs ▸ hr
        simp [getStagedDiff, h0, hex, hinc]
    · by_cases h0 : env.staged = []
      · simp [getStagedDiff, h0]
      · obtain ⟨excl, hex⟩ := Option.isSome_iff_exists.mp hexS
        obtain ⟨hA, _⟩ := optionFilter_eq_some hex
        by_cases hexe : excl = []
        · subst hexe
          simp [getStagedDiff, h0, hex, hall]
        · have hkS : (optionFilter
              (fun file => (anyPatternMatches file (allPatterns cfg)).map
                (fun b => !b)) env.staged).isSome = true := by
            apply optionFilter_isSome
            intro x hx
            have hm := hA x hx
            cases hpx : anyPatternMatches x (allPatterns cfg) with
            | none => rw [hpx] at hm; simp at hm
            | some b => simp [hpx]
          obtain ⟨keep, hkeep⟩ := Option.isSome_iff_exists.mp hkS
          have hkeep2 : filesToInclude cfg env.staged = some keep := hkeep
          by_cases hke : keep = []
          · subst hke
            simp [getStagedDiff, h0, hex, hexe, hkeep2]
          · simp [getStagedDiff, h0, hex, hexe, hkeep2, hke, hof keep]
  exact ⟨hnull, by simp [issuesModelRequest, hnull]⟩

/-- Witness for C6 with nothing staged. -/
theorem empty_analysis_no_model_request_witness :
    getStagedDiff [] ⟨[], "", fun _ => ""⟩ = DiffResult.nullRes ∧
    issuesModelRequest [] ⟨[], "", fun _ => ""⟩ = false :=
  empty_analysis_no_model_request [] ⟨[], "", fun _ => ""⟩ (Or.inl rfl)

/-- C4 (amended): truncateDiffSmart returns its input unchanged when the
length is within the 6000-character budget; beyond the budget the output
is the chunked truncation, whose length is NOT bounded by the budget plus
one fixed-size marker (the per-chunk cap counts lines, not characters). -/
theorem truncateDiffSmart_id_within_budget :
    ∀ d : String, d.length ≤ MAX_DIFF_LENGTH → truncateDiffSmart d = d := by
  intro d h
  simp [truncateDiffSmart, h]

/-- Witness for the amended C4 on a small diff. -/
theorem truncateDiffSmart_id_within_budget_witness :
    truncateDiffSmart "abc" = "abc" :=
  truncateDiffSmart_id_within_budget "abc" (by decide)

/-- Prefix test of a list against itself extended. -/
theorem isPrefixOf_append_self (p t : List Char) :
    p.isPrefixOf (p ++ t) = true := by
  induction p with
  | nil => simp [List.isPrefixOf]
  | cons c cs ih => simp [List.isPrefixOf, ih]

/-- splitNlChars of a newline-free text is the single full line. -/
theorem splitNlChars_no_nl : ∀ l : List Char, '\n' ∉ l → splitNlChars l = [l] := by
  intro l
  induction l with
  | nil => intro _; rfl
  | cons c cs ih =>
    intro h
    have hc : ¬(c = '\n') := fun e => h (by rw [e]; exact List.mem_cons_self _ _)
    have hcs : '\n' ∉ cs := fun m => h (List.mem_cons_of_mem c m)
    simp only [splitNlChars]
    rw [if_neg hc, ih hcs]

/-- C4 counterexample: a 6011-character single-header diff is over budget,
and the truncated output is 6048 characters, exceeding the budget plus
the 36-character global truncation marker (6036): the per-chunk cap
bounds the number of retained lines, not their characters. -/
theorem truncateDiffSmart_exceeds_budget :
    MAX_DIFF_LENGTH < bigDiff.length ∧
    MAX_DIFF_LENGTH + truncMarker.length < (truncateDiffSmart bigDiff).length := by
  have hdata : bigDiff.data = "diff --git ".data ++ List.replicate 6000 'a' := rfl
  have hlen : bigDiff.data.length = 6011 := by
    rw [hdata, List.length_append, List.length_replicate]
    decide
  have hlenS : bigDiff.length = 6011 := hlen
  have hnl : '\n' ∉ bigDiff.data := by
    rw [hdata]
    intro hm
    rcases List.mem_append.mp hm with hm | hm
    · exact absurd hm (by decide)
    · exact absurd (List.eq_of_mem_replicate hm) (by decide)
  have hne : bigDiff.data ≠ [] := by
    intro h
    rw [h] at hlen
    exact absurd hlen (by decide)
  have hsplit : splitNlChars bigDiff.data = [bigDiff.data] :=
    splitNlChars_no_nl _ hnl
  have hpre : "diff --git".data.isPrefixOf bigDiff.data = true := by
    have e : bigDiff.data = "diff --git".data ++ (' ' :: List.replicate 6000 'a') := by
      rw [hdata]
      have e2 : "diff --git ".data = "diff --git".data ++ [' '] := by decide
      rw [e2, List.append_assoc]
      rfl
    rw [e]
    exact isPrefixOf_append_self _ _
  have hchunks : collectChunksAux [bigDiff.data] ⟨[], []⟩ =
      [⟨bigDiff.data, []⟩] := by
    simp only [collectChunksAux, hpre]
    simp [hne]
  have hassemble : assembleChunks 120 [⟨bigDiff.data, []⟩] [] 0 =
      [bigDiff.data, truncMarker] := by
    simp [assembleChunks, joinNl, MAX_DIFF_LENGTH, hlen]
  have hout : truncateDiffSmart bigDiff =
      String.mk (bigDiff.data ++ '\n' :: truncMarker) := by
    have hgt : ¬(bigDiff.length ≤ MAX_DIFF_LENGTH) := by
      rw [hlenS]; decide
    simp only [truncateDiffSmart]
    rw [if_neg hgt]
    simp only [hsplit, hchunks, List.length_cons, List.length_nil]
    norm_num [MAX_DIFF_LENGTH]
    rw [hassemble]
    simp [joinNl]
  refine ⟨by rw [hlenS]; decide, ?_⟩
  rw [hout]
  have hfin : (String.mk (bigDiff.data ++ '\n' :: truncMarker)).length =
      bigDiff.data.length + ('\n' :: truncMarker).length := by
    show (bigDiff.data ++ '\n' :: truncMarker).length = _
    rw [List.length_append]
  rw [hfin, hlen]
  decide

/-- Every value of the synonym table is a canonical commit type. -/
theorem typeMap_values_mem : ∀ kv ∈ typeMap, kv.2 ∈ COMMIT_TYPES := by
  intro kv hkv
  fin_cases hkv <;> decide

/-- Whenever the repaired record's type is a string, it is canonical: a
canonical input is kept, a synonym is remapped into the table's canonical
values, and a non-synonym that misses the prototype chain defaults to
"chore"; the remaining case stores an inherited non-string member. -/
theorem repairParsed_type_mem (v : JVal) (t subj : String) :
    ∀ s, (repairParsed v t subj).type = TypeField.str s → s ∈ COMMIT_TYPES := by
  intro s hs
  have hs2 : normalizeType t = TypeField.str s := hs
  unfold normalizeType at hs2
  by_cases hc : COMMIT_TYPES.contains t
  · rw [if_pos hc] at hs2
    cases hs2
    simpa using hc
  · rw [if_neg hc] at hs2
    cases hl : typeMapLookup (jsToLower t) with
    | none =>
      rw [hl] at hs2
      by_cases hp : OBJECT_PROTOTYPE_MEMBERS.contains (jsToLower t)
      · rw [if_pos hp] at hs2
        cases hs2
      · rw [if_neg hp] at hs2
        cases hs2
        decide
    | some r =>
      rw [hl] at hs2
      cases hs2
      unfold typeMapLookup at hl
      cases hf : typeMap.find? (fun kv => kv.1 == jsToLower t) with
      | none => rw [hf] at hl; simp at hl
      | some kv =>
        rw [hf] at hl
        simp only [Option.map_some', Option.some.injEq] at hl
        subst hl
        exact typeMap_values_mem kv (List.mem_of_find?_eq_some hf)

/-- The fallback alternation returns a type drawn from its candidate
list. -/
theorem matchConventionalAux_mem :
    ∀ (tys : List String) (l : List Char) (ty : String) (sc : Option String)
      (subj : String),
      matchConventionalAux tys l = some (ty, sc, subj) → ty ∈ tys := by
  intro tys
  induction tys with
  | nil => intro l ty sc subj h; simp [matchConventionalAux] at h
  | cons t ts ih =>
    intro l ty sc subj h
    simp only [matchConventionalAux] at h
    split at h
    · exact List.mem_cons_of_mem _ (ih l ty sc subj h)
    · split at h
      · exact List.mem_cons_of_mem _ (ih l ty sc subj h)
      · split at h
        · exact List.mem_cons_of_mem _ (ih l ty sc subj h)
        · simp only [Option.some.injEq, Prod.mk.injEq] at h
          obtain ⟨h4, -⟩ := h
          subst h4
          exact List.mem_cons_self _ _

/-- The text fallback always yields a canonical string type: either the
matched alternation token or the last-resort "chore". -/
theorem extractCommitFromText_type_mem (text : String) :
    ∃ s, (extractCommitFromText text).type = TypeField.str s ∧
      s ∈ COMMIT_TYPES := by
  unfold extractCommitFromText
  split
  · exact ⟨"chore", rfl, by decide⟩
  · split
    · next ty sc subj heq =>
      exact ⟨ty, rfl, matchConventionalAux_mem _ _ ty sc subj heq⟩
    · exact ⟨"chore", rfl, by decide⟩

/-- Implication form of the fallback type canonicity. -/
theorem extractCommitFromText_str_canonical (text : String) :
    ∀ s, (extractCommitFromText text).type = TypeField.str s →
      s ∈ COMMIT_TYPES := by
  intro s hs
  obtain ⟨s2, he, hmem⟩ := extractCommitFromText_type_mem text
  rw [he] at hs
  cases hs
  exact hmem

/-- C1 (amended): parseCommitResponse is a total function (it terminates
on every input and never raises, by construction of the model), and
whenever the type it stores is a string, that string is one of the 11
canonical commit types.  Two corners keep the original claim from
holding in full: the subject can come out empty when the cleaned subject
is a lone period (trailing-period stripping runs after the non-emptiness
check), and when the lower-cased type names an inherited
`Object.prototype` member the bracket lookup
`typeMap[parsed.type.toLowerCase()]` finds the truthy inherited value,
so the program stores that non-string value instead of "chore" — as the
second conjunct shows at type "constructor". -/
theorem parseCommitResponse_type_canonical :
    (∀ raw : String, ∀ s, (parseCommitResponse raw).type = TypeField.str s →
      s ∈ COMMIT_TYPES) ∧
    (parseCommitResponse
        "\x7b\"type\": \"constructor\", \"subject\": \"x\"\x7d").type =
      TypeField.inheritedMember "constructor" := by
  constructor
  · intro raw s hs
    unfold parseCommitResponse at hs
    split at hs
    · exact extractCommitFromText_str_canonical raw s hs
    · split at hs
      · split at hs
        · exact extractCommitFromText_str_canonical raw s hs
        · split at hs
          · split at hs
            · exact extractCommitFromText_str_canonical raw s hs
            · exact repairParsed_type_mem _ _ _ s hs
          · exact extractCommitFromText_str_canonical raw s hs
      · exact extractCommitFromText_str_canonical raw s hs
  · decide

/-- Witness for the amended C1 at a concrete input whose stored type is
the string "chore". -/
theorem parseCommitResponse_type_canonical_witness :
    ("chore" : String) ∈ COMMIT_TYPES :=
  parseCommitResponse_type_canonical.1 "no structure here at all" "chore"
    (by decide)

/-- C1 counterexample: on the well-formed response whose subject is a
lone period, the normalizer returns an empty subject — trailing-period
stripping runs after the non-emptiness check — refuting the claim that
the subject is non-empty for every input. -/
theorem parseCommitResponse_empty_subject :
    (parseCommitResponse "\x7b\"type\": \"feat\", \"subject\": \".\"\x7d").subject
      = "" := by decide

/-- C7: the fallback extraction of the documented conventional-commit
text yields exactly the claimed record. -/
theorem parseCommitResponse_fallback_extraction :
    parseCommitResponse "feat(auth): add login\n- step one\n- step two" =
      ⟨TypeField.str "feat", some "auth", "add login",
        some ["step one", "step two"]⟩ := by
  decide

/-- C9 counterexample: a record with a present but empty scope renders
without the parenthesised scope (JS truthiness), not as "fix(): x",
refuting the claim for records whose scope is present but empty. -/
theorem formatCommitMessage_empty_scope_drops_parens :
    formatCommitMessage ⟨TypeField.str "fix", some "", "x", none⟩ = "fix: x" ∧
    ("fix: x" : String) ≠ "fix(): x" := ⟨rfl, by decide⟩

/-- C9 (amended): the formatter renders a record with a present
*non-empty* scope as "type(scope): subject" and one with an absent (or
empty-string) scope as "type: subject"; a present non-empty body appends
one blank line and one "- item" line per entry in order; and the
documented concrete round-trip holds verbatim. -/
theorem formatCommitMessage_contract :
    (formatCommitMessage ⟨TypeField.str "fix", some "auth", "handle null token",
        some ["guard against empty header"]⟩ =
      "fix(auth): handle null token\n\n- guard against empty header") ∧
    (∀ ty s subj, s ≠ "" →
      formatCommitMessage ⟨TypeField.str ty, some s, subj, none⟩ =
        ty ++ "(" ++ s ++ "): " ++ subj) ∧
    (∀ ty subj, formatCommitMessage ⟨TypeField.str ty, none, subj, none⟩ =
      ty ++ ": " ++ subj) ∧
    (∀ ty subj items, items ≠ [] →
      formatCommitMessage ⟨TypeField.str ty, none, subj, some items⟩ =
        ty ++ ": " ++ subj ++ "\n\n" ++
          String.intercalate "\n" (items.map (fun i => "- " ++ i))) := by
  refine ⟨by decide, ?_, ?_, ?_⟩
  · intro ty s subj hs
    simp [formatCommitMessage, typeFieldToString, hs]
  · intro ty subj
    simp [formatCommitMessage, typeFieldToString]
  · intro ty subj items hi
    have hlen : items.length > 0 := List.length_pos.mpr hi
    simp [formatCommitMessage, typeFieldToString, hlen]

/-- Witness for the amended C9 at concrete records. -/
theorem formatCommitMessage_contract_witness :
    (formatCommitMessage ⟨TypeField.str "feat", some "api", "x", none⟩ =
      "feat" ++ "(" ++ "api" ++ "): " ++ "x") ∧
    (formatCommitMessage ⟨TypeField.str "docs", none, "y", some ["a", "b"]⟩ =
      "docs" ++ ": " ++ "y" ++ "\n\n" ++
        String.intercalate "\n" (["a", "b"].map (fun i => "- " ++ i))) :=
  ⟨formatCommitMessage_contract.2.1 "feat" "api" "x" (by decide),
   formatCommitMessage_contract.2.2.2 "docs" "y" ["a", "b"] (by decide)⟩

end Mkcommit
